import Mathlib

/-!
A verification of the manual ABI calldata encoding layer of the hylos-tank
repository: the Word Encoder (`src/utils/encoding.js`), the bridge,
delegation/claim and governance calldata builders, and the bridge parameter
validation (`BridgeCalldataBuilder.validateBridgeParams` together with
`BridgeService.bridgeTokens`).

Hex strings are modelled as lists of characters; JavaScript numbers and
bigints as Lean integers; functions of the ethers library that can throw
return `Option`, with `none` for a thrown error.
-/

namespace HylosTank

/-- Lowercase hex character of a digit value below 16 (ethers hexlify emits lowercase). -/
def hexCharOfDigit (n : Nat) : Char :=
  if n < 10 then Char.ofNat (48 + n) else Char.ofNat (87 + n)

/-- Value of a hex character, either case, as accepted by ethers getBytes. -/
def digitOfHexChar? (c : Char) : Option Nat :=
  if 48 ≤ c.toNat ∧ c.toNat ≤ 57 then some (c.toNat - 48)
  else if 97 ≤ c.toNat ∧ c.toNat ≤ 102 then some (c.toNat - 87)
  else if 65 ≤ c.toNat ∧ c.toNat ≤ 70 then some (c.toNat - 55)
  else none

/-- Two lowercase hex characters of a byte. -/
def hexOfByte (b : Nat) : List Char := [hexCharOfDigit (b / 16), hexCharOfDigit (b % 16)]

/-- ethers.hexlify without its 0x prefix: two lowercase hex characters per byte. -/
def hexOfBytes (bs : List Nat) : List Char := bs.flatMap hexOfByte

/-- Big-endian base-256 digits, fuel-indexed so that it is structurally
    recursive and reduces inside the kernel. -/
def beBytesAux : Nat → Nat → List Nat
  | 0, _ => []
  | fuel + 1, v => if v = 0 then [] else beBytesAux fuel (v / 256) ++ [v % 256]

/-- Minimal big-endian byte representation of a natural number ([] for 0). -/
def beBytes (v : Nat) : List Nat := beBytesAux v v

/-- The byte content of ethers.toBeHex: minimal big-endian bytes with at
    least one byte (toBeHex 0 is "0x00"). -/
def toBeBytes (v : Nat) : List Nat := if v = 0 then [0] else beBytes v

/-- ethers.zeroPadValue: left-pad a byte sequence with zero bytes to n bytes;
    throws (none) when the input is longer than n bytes. -/
def zeroPadValue? (bs : List Nat) (n : Nat) : Option (List Nat) :=
  if bs.length ≤ n then some (List.replicate (n - bs.length) 0 ++ bs) else none

/-- EncodingUtils.encodeUint: ethers.hexlify(ethers.zeroPadValue(ethers.toBeHex(value), 32)).slice(2).
    toBeHex throws on a negative value; zeroPadValue throws past 32 bytes. -/
def encodeUint (value : Int) : Option (List Char) :=
  if value < 0 then none
  else (zeroPadValue? (toBeBytes value.toNat) 32).map hexOfBytes

/-- The hex-pair scan of ethers.getBytes: an even run of hex characters to bytes. -/
def hexPairs? : List Char → Option (List Nat)
  | [] => some []
  | [_] => none
  | c1 :: c2 :: rest =>
    match digitOfHexChar? c1, digitOfHexChar? c2, hexPairs? rest with
    | some h, some l, some bs => some ((16 * h + l) :: bs)
    | _, _, _ => none

/-- ethers.getBytes on a string: a 0x prefix followed by an even number of
    hex digits; anything else throws (none). -/
def getBytes? (s : String) : Option (List Nat) :=
  match s.data with
  | '0' :: 'x' :: rest => hexPairs? rest
  | _ => none

/-- EncodingUtils.encodeAddress: ethers.hexlify(ethers.zeroPadValue(addr, 32)).slice(2). -/
def encodeAddress (addr : String) : Option (List Char) :=
  (getBytes? addr >>= fun bs => zeroPadValue? bs 32).map hexOfBytes

/-- UTF-8 encoding of a single character, as ethers.toUtf8Bytes performs it. -/
def utf8EncodeChar (c : Char) : List Nat :=
  let v := c.toNat
  if v < 128 then [v]
  else if v < 2048 then [192 + v / 64, 128 + v % 64]
  else if v < 65536 then [224 + v / 4096, 128 + v / 64 % 64, 128 + v % 64]
  else [240 + v / 262144, 128 + v / 4096 % 64, 128 + v / 64 % 64, 128 + v % 64]

/-- ethers.toUtf8Bytes of a string. -/
def utf8Bytes (s : String) : List Nat := s.data.flatMap utf8EncodeChar

/-- JavaScript String.prototype.length: the number of UTF-16 code units. -/
def jsStrLen (s : String) : Nat :=
  (s.data.map (fun c => if c.toNat < 65536 then 1 else 2)).sum

/-- Math.ceil(n / 32) * 32, the padded-size computation the source repeats. -/
def ceil32 (n : Nat) : Nat := (n + 31) / 32 * 32

/-- The pair EncodingUtils.encodeString returns: { lengthHex, paddedData }. -/
structure EncodedString where
  lengthHex : List Char
  paddedData : List Char
deriving Repr, DecidableEq

/-- EncodingUtils.encodeString (GovernanceService.encodeString and
    GovernanceService.encodeMessagesArray repeat the same code verbatim):
    UTF-8 bytes zero-right-padded to the next multiple of 32 bytes, with a
    length word carrying the raw byte count. -/
def encodeString (str : String) : Option EncodedString :=
  (encodeUint (utf8Bytes str).length).map fun lw =>
    ⟨lw, hexOfBytes (utf8Bytes str ++
      List.replicate (ceil32 (utf8Bytes str).length - (utf8Bytes str).length) 0)⟩

/-- EncodingUtils.encodeBool: encodeUint(value ? 1 : 0). -/
def encodeBool (value : Bool) : Option (List Char) := encodeUint (if value then 1 else 0)

/-- Decimal digit accumulator for jsBigInt?. -/
def decDigitsAux? : List Char → Nat → Option Nat
  | [], acc => some acc
  | c :: rest, acc =>
    if 48 ≤ c.toNat ∧ c.toNat ≤ 57 then decDigitsAux? rest (acc * 10 + (c.toNat - 48))
    else none

/-- JavaScript BigInt(string) on the decimal fragment the call sites use:
    an optional minus sign and decimal digits; the empty string is 0n; a
    non-numeric string throws a SyntaxError (none).  Whitespace trimming and
    0x/0o/0b radix prefixes are not exercised by the repository and are not
    modelled. -/
def jsBigInt? (s : String) : Option Int :=
  match s.data with
  | [] => some 0
  | '-' :: ds =>
    match ds with
    | [] => none
    | _ => (decDigitsAux? ds 0).map fun n => -(n : Int)
  | ds => (decDigitsAux? ds 0).map fun n => (n : Int)

/-- encodeUint applied to a JavaScript numeric string (ethers.toBeHex converts
    the string through BigInt). -/
def encodeUintS (s : String) : Option (List Char) := jsBigInt? s >>= encodeUint

/-- BridgeCalldataBuilder.buildBridgeCalldata: selector "0x7ae4a8ff", five
    static head words (destination chain, constant offset 0xa0 = 160, token,
    amount, fee), then the extra string's length word and padded data. -/
def buildBridgeCalldata (destChainId : Int)
    (tokenAddress amountWei feeOrGas extraString : String) : Option String := do
  let encodedDest ← encodeUint destChainId
  let encodedOffset ← encodeUint 160
  let encodedToken ← encodeAddress tokenAddress
  let encodedAmount ← encodeUintS amountWei
  let encodedFee ← encodeUintS feeOrGas
  let encodedExtra ← encodeString extraString
  return ⟨"0x7ae4a8ff".data ++ encodedDest ++ encodedOffset ++ encodedToken ++
    encodedAmount ++ encodedFee ++ encodedExtra.lengthHex ++ encodedExtra.paddedData⟩

/-- The JS default value of buildDelegationCalldata's denom parameter. -/
def defaultDenom : String := "ahelios"

/-- DelegationCalldataBuilder.buildDelegationCalldata: "0x" + selector
    f5e56040, delegator, validator, amount, constant offset 128, then the
    denom string's length word and padded data. -/
def buildDelegationCalldata (delegator validator amount denom : String) : Option String := do
  let encodedDelegator ← encodeAddress delegator
  let encodedValidator ← encodeAddress validator
  let encodedAmount ← encodeUintS amount
  let encodedOffset ← encodeUint 128
  let encodedDenom ← encodeString denom
  return ⟨"0x".data ++ "f5e56040".data ++ encodedDelegator ++ encodedValidator ++
    encodedAmount ++ encodedOffset ++ encodedDenom.lengthHex ++ encodedDenom.paddedData⟩

/-- buildDelegationCalldata invoked without a denom argument, which JavaScript
    fills with the default "ahelios". -/
def buildDelegationCalldataNoDenom (delegator validator amount : String) : Option String :=
  buildDelegationCalldata delegator validator amount defaultDenom

/-- DelegationCalldataBuilder.buildClaimCalldata: "0x" + selector 2efe8a5f,
    delegator word, amount word; no dynamic tail. -/
def buildClaimCalldata (delegator : String) (claimAmountOrId : Int) : Option String := do
  let encodedDelegator ← encodeAddress delegator
  let encodedAmount ← encodeUint claimAmountOrId
  return ⟨"0x".data ++ "2efe8a5f".data ++ encodedDelegator ++ encodedAmount⟩

/-- GovernanceService.buildVoteCalldata: selector 9ec4d363, voter, proposal
    id, support flag, constant offset 128, then the reason string's length
    word and padded data, the whole prefixed with "0x". -/
def buildVoteCalldata (voter : String) (proposalId : Int) (support : Bool)
    (reason : String) : Option String := do
  let encodedVoter ← encodeAddress voter
  let encodedProposalId ← encodeUint proposalId
  let encodedSupport ← encodeBool support
  let offsetToString ← encodeUint 128
  let encodedReason ← encodeString reason
  return ⟨"0x".data ++ "9ec4d363".data ++ encodedVoter ++ encodedProposalId ++
    encodedSupport ++ offsetToString ++ encodedReason.lengthHex ++ encodedReason.paddedData⟩

/-- GovernanceService.buildCreateProposalCalldata.  The messages array
    argument is modelled by its JSON serialization, since
    encodeMessagesArray JSON.stringifies the array and then encodes the
    resulting text exactly like encodeString.  The offsets are computed from
    the JavaScript string length (UTF-16 code units: title.length), while the
    emitted dynamic data is UTF-8 encoded. -/
def buildCreateProposalCalldata (title description messagesJson deposit : String) :
    Option String := do
  let titleOffset : Nat := 160
  let descriptionOffset : Nat := titleOffset + 32 + ceil32 (jsStrLen title)
  let messagesOffset : Nat := descriptionOffset + 32 + ceil32 (jsStrLen description)
  let encodedTitleOffset ← encodeUint titleOffset
  let encodedDescriptionOffset ← encodeUint descriptionOffset
  let encodedMessagesOffset ← encodeUint messagesOffset
  let encodedDeposit ← encodeUintS deposit
  let encodedProposer ← encodeAddress "0x0000000000000000000000000000000000000000"
  let encodedTitle ← encodeString title
  let encodedDescription ← encodeString description
  let encodedMessages ← encodeString messagesJson
  return ⟨"0x".data ++ "cb0dddfe".data ++ encodedTitleOffset ++ encodedDescriptionOffset ++
    encodedMessagesOffset ++ encodedDeposit ++ encodedProposer ++
    encodedTitle.lengthHex ++ encodedTitle.paddedData ++
    encodedDescription.lengthHex ++ encodedDescription.paddedData ++
    encodedMessages.lengthHex ++ encodedMessages.paddedData⟩

/-- Hex digit test, either case. -/
def isHexDigitChar (c : Char) : Bool :=
  (48 ≤ c.toNat && c.toNat ≤ 57) || (97 ≤ c.toNat && c.toNat ≤ 102) ||
    (65 ≤ c.toNat && c.toNat ≤ 70)

/-- Helpers.isValidAddress = ValidationUtils.isValidAddress, i.e. whether
    ethers.getAddress succeeds: an optionally 0x-prefixed run of 40 hex
    digits.  Two branches of getAddress are not modelled: the EIP-55 checksum
    test it applies to mixed-case inputs, and its acceptance of ICAP
    "XE.."-prefixed addresses.  Both involve uppercase letters, so every
    theorem that uses this definition carries a noUpper hypothesis on the
    address, restricting it to the fragment where getAddress succeeds exactly
    on 40-hex-digit inputs and this model is faithful. -/
def isValidAddress (address : String) : Bool :=
  let ds := match address.data with
    | '0' :: 'x' :: rest => rest
    | other => other
  ds.length == 40 && ds.all isHexDigitChar

/-- No uppercase ASCII letters: the fragment of inputs on which isValidAddress
    above is a faithful model of ethers.getAddress. -/
def noUpper (s : String) : Bool := s.data.all fun c => !(65 ≤ c.toNat && c.toNat ≤ 90)

/-- extraString.startsWith('0x'). -/
def startsWith0x (s : String) : Bool :=
  match s.data with
  | '0' :: 'x' :: _ => true
  | _ => false

/-- The check !amountWei || BigInt(amountWei) <= 0 of validateBridgeParams;
    none models the uncaught SyntaxError BigInt raises on a non-numeric
    string (the || short-circuits, so BigInt never sees the empty string). -/
def amountErrors (amountWei : String) : Option (List String) :=
  if amountWei = "" then some ["Invalid amount"]
  else
    match jsBigInt? amountWei with
    | none => none
    | some a => some (if a ≤ 0 then ["Invalid amount"] else [])

/-- The check !feeOrGas || BigInt(feeOrGas) < 0 of validateBridgeParams
    (note: strictly negative, so the string "0" passes). -/
def feeErrors (feeOrGas : String) : Option (List String) :=
  if feeOrGas = "" then some ["Invalid fee/gas amount"]
  else
    match jsBigInt? feeOrGas with
    | none => none
    | some f => some (if f < 0 then ["Invalid fee/gas amount"] else [])

/-- BridgeCalldataBuilder.validateBridgeParams: collects the message of every
    violated check.  some errs is the collected list (the JS function throws
    exactly when it is nonempty); none is an uncaught BigInt SyntaxError.
    The extra-string check is !extraString || !extraString.startsWith('0x'),
    which startsWith0x captures ("" does not start with "0x"). -/
def validateBridgeParams (destChainId : Int)
    (tokenAddress amountWei feeOrGas extraString : String) : Option (List String) := do
  let e1 := if destChainId ≤ 0 then ["Invalid destination chain ID"] else []
  let e2 := if isValidAddress tokenAddress then [] else ["Invalid token address"]
  let e3 ← amountErrors amountWei
  let e4 ← feeErrors feeOrGas
  let e5 := if startsWith0x extraString then [] else ["Invalid extra string (must be hex address)"]
  return e1 ++ e2 ++ e3 ++ e4 ++ e5

/-- The message of the error validateBridgeParams throws. -/
def bridgeValidationMessage (errs : List String) : String :=
  "Bridge validation failed: " ++ String.intercalate ", " errs

/-- BridgeService.bridgeTokens restricted to its calldata pipeline: validate
    the parameters, then build the calldata.  Gas estimation, signing and
    submission are external collaborators outside the model.  The thrown
    validation error is caught by the service and reported as failure; the
    builder is never invoked on that path. -/
def bridgeTokensCore (destChainId : Int)
    (tokenAddress amountWei feeOrGas extraString : String) : Option (Except String String) :=
  (validateBridgeParams destChainId tokenAddress amountWei feeOrGas extraString).map fun errs =>
    if errs.isEmpty then
      (buildBridgeCalldata destChainId tokenAddress amountWei feeOrGas extraString).elim
        (Except.error "Failed to build bridge calldata") Except.ok
    else Except.error (bridgeValidationMessage errs)

/-- Numeric value of a hex word, reading junk characters as 0; used to decode
    words back out of emitted calldata. -/
def hexToNat (cs : List Char) : Nat :=
  cs.foldl (fun a c => a * 16 + ((digitOfHexChar? c).getD 0)) 0

/-- The 32-byte word of a calldata string at parameter-area byte offset i:
    character position 10 + 2i, after "0x" and the 8-character selector. -/
def wordAt (cd : String) (i : Nat) : List Char :=
  (cd.data.drop (10 + 2 * i)).take 64

/-! ## Facts about the hex primitives -/

theorem digitOfHexChar_hexCharOfDigit : ∀ n < 16, digitOfHexChar? (hexCharOfDigit n) = some n := by
  decide

theorem hexOfBytes_cons (b : Nat) (bs : List Nat) :
    hexOfBytes (b :: bs) = hexOfByte b ++ hexOfBytes bs := rfl

theorem hexOfBytes_cons2 (b : Nat) (bs : List Nat) :
    hexOfBytes (b :: bs) =
      hexCharOfDigit (b / 16) :: hexCharOfDigit (b % 16) :: hexOfBytes bs := rfl

theorem hexOfBytes_append (a b : List Nat) :
    hexOfBytes (a ++ b) = hexOfBytes a ++ hexOfBytes b :=
  List.flatMap_append a b hexOfByte

theorem hexOfBytes_length (bs : List Nat) : (hexOfBytes bs).length = 2 * bs.length := by
  induction bs with
  | nil => rfl
  | cons b bs ih =>
    rw [hexOfBytes_cons, List.length_append, ih, List.length_cons]
    have h2 : (hexOfByte b).length = 2 := rfl
    omega

/-! ## Facts about the big-endian byte representation -/

theorem beBytesAux_congr : ∀ f1 f2 v : Nat, v ≤ f1 → v ≤ f2 → beBytesAux f1 v = beBytesAux f2 v := by
  intro f1
  induction f1 with
  | zero =>
    intro f2 v h1 h2
    have hv : v = 0 := by omega
    subst hv
    cases f2 <;> simp [beBytesAux]
  | succ f1 ih =>
    intro f2 v h1 h2
    cases f2 with
    | zero =>
      have hv : v = 0 := by omega
      subst hv
      simp [beBytesAux]
    | succ f2 =>
      by_cases hv : v = 0
      · subst hv; simp [beBytesAux]
      · have hlt : v / 256 < v := Nat.div_lt_self (Nat.pos_of_ne_zero hv) (by norm_num)
        simp only [beBytesAux, if_neg hv]
        rw [ih f2 (v / 256) (by omega) (by omega)]

theorem beBytes_pos (v : Nat) (hv : v ≠ 0) : beBytes v = beBytes (v / 256) ++ [v % 256] := by
  have hlt : v / 256 < v := Nat.div_lt_self (Nat.pos_of_ne_zero hv) (by norm_num)
  obtain ⟨w, rfl⟩ := Nat.exists_eq_succ_of_ne_zero hv
  show beBytesAux (w + 1) (w + 1) = _
  simp only [beBytesAux, if_neg hv]
  rw [beBytesAux_congr w ((w + 1) / 256) ((w + 1) / 256) (by omega) (by omega)]
  rfl

theorem foldl_beBytes (v : Nat) : ∀ a : Nat,
    (beBytes v).foldl (fun x b => x * 256 + b) a = a * 256 ^ (beBytes v).length + v := by
  induction v using Nat.strong_induction_on with
  | _ v ih =>
    intro a
    by_cases hv : v = 0
    · subst hv; simp [beBytes, beBytesAux]
    · have hlt : v / 256 < v := Nat.div_lt_self (Nat.pos_of_ne_zero hv) (by norm_num)
      rw [beBytes_pos v hv, List.foldl_append, ih (v / 256) hlt a]
      simp only [List.length_append, List.length_cons, List.length_nil, List.foldl]
      rw [pow_succ, ← mul_assoc]
      generalize a * 256 ^ (beBytes (v / 256)).length = q
      omega

theorem beBytes_length_le (k : Nat) : ∀ v : Nat, v < 256 ^ k → (beBytes v).length ≤ k := by
  induction k with
  | zero =>
    intro v h
    have hv : v = 0 := by simpa using h
    subst hv
    simp [beBytes, beBytesAux]
  | succ k ih =>
    intro v h
    by_cases hv : v = 0
    · subst hv; simp [beBytes, beBytesAux]
    · rw [beBytes_pos v hv]
      simp only [List.length_append, List.length_cons, List.length_nil]
      have hdiv : v / 256 < 256 ^ k := Nat.div_lt_of_lt_mul (by rw [← pow_succ']; exact h)
      have := ih (v / 256) hdiv
      omega

theorem lt_of_beBytes_length_le (k : Nat) : ∀ v : Nat, (beBytes v).length ≤ k → v < 256 ^ k := by
  induction k with
  | zero =>
    intro v h
    by_cases hv : v = 0
    · subst hv; simp
    · rw [beBytes_pos v hv] at h
      simp at h
  | succ k ih =>
    intro v h
    by_cases hv : v = 0
    · subst hv
      exact pow_pos (by norm_num) _
    · rw [beBytes_pos v hv] at h
      simp only [List.length_append, List.length_cons, List.length_nil] at h
      have h2 := ih (v / 256) (by omega)
      rw [pow_succ]
      have hm : v % 256 < 256 := Nat.mod_lt _ (by norm_num)
      have hdm := Nat.div_add_mod v 256
      generalize hq : (256 : Nat) ^ k = p at h2 ⊢
      omega

theorem beBytes_mem (v : Nat) : ∀ b ∈ beBytes v, b < 256 := by
  induction v using Nat.strong_induction_on with
  | _ v ih =>
    intro b hb
    by_cases hv : v = 0
    · subst hv; simp [beBytes, beBytesAux] at hb
    · have hlt : v / 256 < v := Nat.div_lt_self (Nat.pos_of_ne_zero hv) (by norm_num)
      rw [beBytes_pos v hv] at hb
      rcases List.mem_append.mp hb with hb | hb
      · exact ih (v / 256) hlt b hb
      · have : b = v % 256 := by simpa using hb
        subst this
        exact Nat.mod_lt _ (by norm_num)

theorem toBeBytes_mem (v : Nat) : ∀ b ∈ toBeBytes v, b < 256 := by
  intro b hb
  unfold toBeBytes at hb
  by_cases hv : v = 0
  · rw [if_pos hv] at hb
    simp at hb
    omega
  · rw [if_neg hv] at hb
    exact beBytes_mem v b hb

theorem toBeBytes_length_le (v : Nat) (h : v < 2 ^ 256) : (toBeBytes v).length ≤ 32 := by
  unfold toBeBytes
  by_cases hv : v = 0
  · simp [hv]
  · rw [if_neg hv]
    refine beBytes_length_le 32 v ?_
    have h32 : (256 : Nat) ^ 32 = 2 ^ 256 := by norm_num
    omega

theorem toBeBytes_length_gt (v : Nat) (h : 2 ^ 256 ≤ v) : 32 < (toBeBytes v).length := by
  unfold toBeBytes
  have hpos : 0 < (2 : Nat) ^ 256 := by positivity
  have hv : v ≠ 0 := by omega
  rw [if_neg hv]
  by_contra hle
  have hlt := lt_of_beBytes_length_le 32 v (by omega)
  have h32 : (256 : Nat) ^ 32 = 2 ^ 256 := by norm_num
  omega

/-! ## Decoding words back: foldl facts -/

theorem foldl_replicate_zero (k : Nat) : ∀ a : Nat,
    (List.replicate k 0).foldl (fun x b => x * 256 + b) a = a * 256 ^ k := by
  induction k with
  | zero => intro a; simp
  | succ k ih =>
    intro a
    rw [List.replicate_succ]
    simp only [List.foldl]
    rw [ih (a * 256 + 0), pow_succ]
    ring

/-- Numeric value of a byte list, big-endian. -/
def bytesToNat (bs : List Nat) : Nat := bs.foldl (fun a b => a * 256 + b) 0

theorem bytesToNat_pad (k : Nat) (bs : List Nat) :
    bytesToNat (List.replicate k 0 ++ bs) = bytesToNat bs := by
  unfold bytesToNat
  rw [List.foldl_append, foldl_replicate_zero]
  simp

theorem bytesToNat_toBeBytes (v : Nat) : bytesToNat (toBeBytes v) = v := by
  unfold toBeBytes bytesToNat
  by_cases hv : v = 0
  · simp [hv]
  · rw [if_neg hv, foldl_beBytes]
    simp

theorem hexToNat_hexOfBytes_aux (bs : List Nat) (hb : ∀ b ∈ bs, b < 256) : ∀ a : Nat,
    (hexOfBytes bs).foldl (fun x c => x * 16 + ((digitOfHexChar? c).getD 0)) a =
      bs.foldl (fun x b => x * 256 + b) a := by
  induction bs with
  | nil => intro a; rfl
  | cons b bs ih =>
    intro a
    have hb256 : b < 256 := hb b (List.mem_cons_self b bs)
    have h1 : digitOfHexChar? (hexCharOfDigit (b / 16)) = some (b / 16) :=
      digitOfHexChar_hexCharOfDigit _ (Nat.div_lt_of_lt_mul (by omega))
    have h2 : digitOfHexChar? (hexCharOfDigit (b % 16)) = some (b % 16) :=
      digitOfHexChar_hexCharOfDigit _ (Nat.mod_lt _ (by norm_num))
    rw [hexOfBytes_cons2]
    simp only [List.foldl, h1, h2, Option.getD_some]
    rw [ih (fun x hx => hb x (List.mem_cons_of_mem b hx))]
    congr 1
    omega

theorem hexToNat_hexOfBytes (bs : List Nat) (hb : ∀ b ∈ bs, b < 256) :
    hexToNat (hexOfBytes bs) = bytesToNat bs :=
  hexToNat_hexOfBytes_aux bs hb 0

theorem hexPairs_hexOfBytes (bs : List Nat) (hb : ∀ b ∈ bs, b < 256) :
    hexPairs? (hexOfBytes bs) = some bs := by
  induction bs with
  | nil => rfl
  | cons b bs ih =>
    have hb256 : b < 256 := hb b (List.mem_cons_self b bs)
    have h1 : digitOfHexChar? (hexCharOfDigit (b / 16)) = some (b / 16) :=
      digitOfHexChar_hexCharOfDigit _ (Nat.div_lt_of_lt_mul (by omega))
    have h2 : digitOfHexChar? (hexCharOfDigit (b % 16)) = some (b % 16) :=
      digitOfHexChar_hexCharOfDigit _ (Nat.mod_lt _ (by norm_num))
    rw [hexOfBytes_cons]
    show hexPairs? (hexCharOfDigit (b / 16) :: hexCharOfDigit (b % 16) :: hexOfBytes bs) = _
    rw [hexPairs?]
    rw [h1, h2, ih (fun x hx => hb x (List.mem_cons_of_mem b hx))]
    have hdm : 16 * (b / 16) + b % 16 = b := by omega
    show some ((16 * (b / 16) + b % 16) :: bs) = some (b :: bs)
    rw [hdm]

/-! ## encodeUint -/

theorem encodeUint_eq_some (v : Int) (h0 : 0 ≤ v) (h1 : v < 2 ^ 256) :
    encodeUint v =
      some (hexOfBytes (List.replicate (32 - (toBeBytes v.toNat).length) 0 ++ toBeBytes v.toNat)) := by
  have hN : v.toNat < 2 ^ 256 := by
    have h2 : ((2 : Int) ^ 256) = ((2 ^ 256 : Nat) : Int) := by push_cast
    omega
  unfold encodeUint zeroPadValue?
  rw [if_neg (not_lt.mpr h0), if_pos (toBeBytes_length_le _ hN)]
  rfl

theorem encodeUint_some_iff (v : Int) : (encodeUint v).isSome ↔ 0 ≤ v ∧ v < 2 ^ 256 := by
  constructor
  · intro h
    unfold encodeUint zeroPadValue? at h
    by_cases h0 : v < 0
    · rw [if_pos h0] at h
      simp at h
    · refine ⟨not_lt.mp h0, ?_⟩
      rw [if_neg h0] at h
      by_contra hbig
      have hb : (2 : Int) ^ 256 ≤ v := not_lt.mp hbig
      have hNb : 2 ^ 256 ≤ v.toNat := by
        have h2 : ((2 : Int) ^ 256) = ((2 ^ 256 : Nat) : Int) := by push_cast
        omega
      rw [if_neg (not_le.mpr (toBeBytes_length_gt _ hNb))] at h
      simp at h
  · intro ⟨h0, h1⟩
    rw [encodeUint_eq_some v h0 h1]
    rfl

theorem encodeUint_length (v : Int) (w : List Char) (h : encodeUint v = some w) :
    w.length = 64 := by
  unfold encodeUint zeroPadValue? at h
  by_cases h0 : v < 0
  · rw [if_pos h0] at h; simp at h
  · rw [if_neg h0] at h
    by_cases hlen : (toBeBytes v.toNat).length ≤ 32
    · rw [if_pos hlen] at h
      rw [Option.map_some'] at h
      injection h with h
      subst h
      rw [hexOfBytes_length]
      simp only [List.length_append, List.length_replicate]
      omega
    · rw [if_neg hlen] at h; simp at h

theorem encodeUint_decode (v : Int) (w : List Char) (h : encodeUint v = some w) :
    (hexToNat w : Int) = v := by
  have h0 : ¬v < 0 := by
    intro h0
    unfold encodeUint at h
    rw [if_pos h0] at h
    simp at h
  unfold encodeUint zeroPadValue? at h
  rw [if_neg h0] at h
  by_cases hlen : (toBeBytes v.toNat).length ≤ 32
  · rw [if_pos hlen] at h
    rw [Option.map_some'] at h
    injection h with h
    subst h
    have hmem : ∀ b ∈ List.replicate (32 - (toBeBytes v.toNat).length) 0 ++ toBeBytes v.toNat,
        b < 256 := by
      intro b hb
      rcases List.mem_append.mp hb with hb | hb
      · have := List.eq_of_mem_replicate hb
        omega
      · exact toBeBytes_mem _ b hb
    rw [hexToNat_hexOfBytes _ hmem, bytesToNat_pad, bytesToNat_toBeBytes]
    omega
  · rw [if_neg hlen] at h; simp at h

theorem encodeUint_none_neg (v : Int) (h : v < 0) : encodeUint v = none := by
  unfold encodeUint
  rw [if_pos h]

theorem encodeUint_none_big (v : Int) (h : (2 : Int) ^ 256 ≤ v) : encodeUint v = none := by
  have h2 : ¬((encodeUint v).isSome) := by
    rw [encodeUint_some_iff]
    push_neg
    intro _
    omega
  cases he : encodeUint v
  · rfl
  · rw [he] at h2; simp at h2

/-! ## UTF-8 facts -/

theorem char_toNat_lt (c : Char) : c.toNat < 1114112 := by
  have h := c.valid
  rcases h with h | ⟨h1, h2⟩
  · simp [Char.toNat]; omega
  · simp [Char.toNat]; omega

theorem utf8EncodeChar_mem (c : Char) : ∀ b ∈ utf8EncodeChar c, b < 256 := by
  intro b hb
  have hc : c.toNat < 1114112 := char_toNat_lt c
  simp only [utf8EncodeChar] at hb
  split_ifs at hb with h1 h2 h3 <;> simp at hb
  · omega
  · have : c.toNat / 64 < 32 := Nat.div_lt_of_lt_mul (by omega)
    have : c.toNat % 64 < 64 := Nat.mod_lt _ (by norm_num)
    omega
  · have : c.toNat / 4096 < 16 := Nat.div_lt_of_lt_mul (by omega)
    have : c.toNat / 64 % 64 < 64 := Nat.mod_lt _ (by norm_num)
    have : c.toNat % 64 < 64 := Nat.mod_lt _ (by norm_num)
    omega
  · have : c.toNat / 262144 < 16 := Nat.div_lt_of_lt_mul (by omega)
    have : c.toNat / 4096 % 64 < 64 := Nat.mod_lt _ (by norm_num)
    have : c.toNat / 64 % 64 < 64 := Nat.mod_lt _ (by norm_num)
    have : c.toNat % 64 < 64 := Nat.mod_lt _ (by norm_num)
    omega

theorem utf8Bytes_mem (s : String) : ∀ b ∈ utf8Bytes s, b < 256 := by
  intro b hb
  unfold utf8Bytes at hb
  obtain ⟨c, _, hbc⟩ := List.mem_flatMap.mp hb
  exact utf8EncodeChar_mem c b hbc

/-! ## ceil32 -/

theorem ceil32_ge (n : Nat) : n ≤ ceil32 n := by
  unfold ceil32
  have h := Nat.div_add_mod (n + 31) 32
  have hr : (n + 31) % 32 < 32 := Nat.mod_lt _ (by norm_num)
  omega

theorem ceil32_mod (n : Nat) : ceil32 n % 32 = 0 := Nat.mul_mod_left _ _

/-! ## encodeString -/

theorem encodeString_eq (str : String) (h : (utf8Bytes str).length < 2 ^ 256) :
    ∃ lw, encodeUint ((utf8Bytes str).length : Int) = some lw ∧
      encodeString str = some ⟨lw, hexOfBytes (utf8Bytes str ++
        List.replicate (ceil32 (utf8Bytes str).length - (utf8Bytes str).length) 0)⟩ := by
  have hsome : (encodeUint ((utf8Bytes str).length : Int)).isSome := by
    rw [encodeUint_some_iff]
    constructor
    · positivity
    · exact_mod_cast h
  obtain ⟨lw, hlw⟩ := Option.isSome_iff_exists.mp hsome
  refine ⟨lw, hlw, ?_⟩
  unfold encodeString
  rw [hlw]
  rfl

theorem encodeString_some_parts (str : String) (es : EncodedString)
    (h : encodeString str = some es) :
    encodeUint ((utf8Bytes str).length : Int) = some es.lengthHex ∧
      es.paddedData = hexOfBytes (utf8Bytes str ++
        List.replicate (ceil32 (utf8Bytes str).length - (utf8Bytes str).length) 0) := by
  unfold encodeString at h
  cases hlw : encodeUint ((utf8Bytes str).length : Int) with
  | none => rw [hlw] at h; simp at h
  | some lw =>
    rw [hlw, Option.map_some'] at h
    injection h with h
    subst h
    exact ⟨rfl, rfl⟩

theorem encodeString_lengthHex_len (str : String) (es : EncodedString)
    (h : encodeString str = some es) : es.lengthHex.length = 64 :=
  encodeUint_length _ _ (encodeString_some_parts str es h).1

theorem encodeString_paddedData_len (str : String) (es : EncodedString)
    (h : encodeString str = some es) :
    es.paddedData.length = 2 * ceil32 (utf8Bytes str).length := by
  rw [(encodeString_some_parts str es h).2, hexOfBytes_length]
  simp only [List.length_append, List.length_replicate]
  have := ceil32_ge (utf8Bytes str).length
  omega

/-! ## Extracting words out of emitted calldata -/

theorem wordAt_extract {cd : String} {p b : List Char} (c : List Char) {i : Nat}
    (hcd : cd.data = p ++ (b ++ c)) (hp : p.length = 10 + 2 * i) (hb : b.length = 64) :
    wordAt cd i = b := by
  unfold wordAt
  rw [hcd, List.drop_left' hp, List.take_left' hb]

/-! ## encodeAddress -/

theorem encodeAddress_of_getBytes (addr : String) (bs : List Nat)
    (hg : getBytes? addr = some bs) (hlen : bs.length ≤ 32) :
    encodeAddress addr = some (hexOfBytes (List.replicate (32 - bs.length) 0 ++ bs)) := by
  unfold encodeAddress
  rw [hg]
  show (zeroPadValue? bs 32).map hexOfBytes = _
  unfold zeroPadValue?
  rw [if_pos hlen]
  rfl

theorem encodeAddress_inv (addr : String) (w : List Char)
    (h : encodeAddress addr = some w) :
    ∃ bs, getBytes? addr = some bs ∧ bs.length ≤ 32 ∧
      w = hexOfBytes (List.replicate (32 - bs.length) 0 ++ bs) := by
  unfold encodeAddress at h
  cases hg : getBytes? addr with
  | none => rw [hg] at h; simp at h
  | some bs =>
    rw [hg] at h
    replace h : (zeroPadValue? bs 32).map hexOfBytes = some w := h
    unfold zeroPadValue? at h
    by_cases hlen : bs.length ≤ 32
    · rw [if_pos hlen, Option.map_some'] at h
      injection h with h
      exact ⟨bs, rfl, hlen, h.symm⟩
    · rw [if_neg hlen] at h
      simp at h

theorem encodeAddress_length (addr : String) (w : List Char)
    (h : encodeAddress addr = some w) : w.length = 64 := by
  obtain ⟨bs, _, hlen, rfl⟩ := encodeAddress_inv addr w h
  rw [hexOfBytes_length]
  simp only [List.length_append, List.length_replicate]
  omega

theorem encodeAddress_none_iff (addr : String) :
    encodeAddress addr = none ↔
      getBytes? addr = none ∨ ∃ bs, getBytes? addr = some bs ∧ 32 < bs.length := by
  constructor
  · intro h
    cases hg : getBytes? addr with
    | none => exact Or.inl rfl
    | some bs =>
      refine Or.inr ⟨bs, rfl, ?_⟩
      by_contra hle
      rw [encodeAddress_of_getBytes addr bs hg (by omega)] at h
      simp at h
  · intro h
    rcases h with h | ⟨bs, hg, hlen⟩
    · unfold encodeAddress
      rw [h]
      rfl
    · unfold encodeAddress
      rw [hg]
      show (zeroPadValue? bs 32).map hexOfBytes = none
      unfold zeroPadValue?
      rw [if_neg (by omega)]
      rfl

/-! ## Inverting a successful builder run -/

theorem buildBridgeCalldata_inv {destChainId : Int} {tok amt fee ex : String} {cd : String}
    (h : buildBridgeCalldata destChainId tok amt fee ex = some cd) :
    ∃ d off t a f es, encodeUint destChainId = some d ∧ encodeUint 160 = some off ∧
      encodeAddress tok = some t ∧ encodeUintS amt = some a ∧ encodeUintS fee = some f ∧
      encodeString ex = some es ∧
      cd.data = "0x7ae4a8ff".data ++ d ++ off ++ t ++ a ++ f ++
        es.lengthHex ++ es.paddedData := by
  simp only [buildBridgeCalldata, bind, Option.bind_eq_some, pure, Option.some.injEq] at h
  obtain ⟨d, hd, off, hoff, t, ht, a, ha, f, hf, es, hes, hcd⟩ := h
  exact ⟨d, off, t, a, f, es, hd, hoff, ht, ha, hf, hes, by rw [← hcd]⟩

theorem buildDelegationCalldata_inv {del val amt den : String} {cd : String}
    (h : buildDelegationCalldata del val amt den = some cd) :
    ∃ d v a off es, encodeAddress del = some d ∧ encodeAddress val = some v ∧
      encodeUintS amt = some a ∧ encodeUint 128 = some off ∧ encodeString den = some es ∧
      cd.data = "0x".data ++ "f5e56040".data ++ d ++ v ++ a ++ off ++
        es.lengthHex ++ es.paddedData := by
  simp only [buildDelegationCalldata, bind, Option.bind_eq_some, pure, Option.some.injEq] at h
  obtain ⟨d, hd, v, hv, a, ha, off, hoff, es, hes, hcd⟩ := h
  exact ⟨d, v, a, off, es, hd, hv, ha, hoff, hes, by rw [← hcd]⟩

theorem buildClaimCalldata_inv {del : String} {amt : Int} {cd : String}
    (h : buildClaimCalldata del amt = some cd) :
    ∃ d a, encodeAddress del = some d ∧ encodeUint amt = some a ∧
      cd.data = "0x".data ++ "2efe8a5f".data ++ d ++ a := by
  simp only [buildClaimCalldata, bind, Option.bind_eq_some, pure, Option.some.injEq] at h
  obtain ⟨d, hd, a, ha, hcd⟩ := h
  exact ⟨d, a, hd, ha, by rw [← hcd]⟩

theorem buildVoteCalldata_inv {voter : String} {pid : Int} {support : Bool} {reason : String}
    {cd : String} (h : buildVoteCalldata voter pid support reason = some cd) :
    ∃ v p s off es, encodeAddress voter = some v ∧ encodeUint pid = some p ∧
      encodeBool support = some s ∧ encodeUint 128 = some off ∧ encodeString reason = some es ∧
      cd.data = "0x".data ++ "9ec4d363".data ++ v ++ p ++ s ++ off ++
        es.lengthHex ++ es.paddedData := by
  simp only [buildVoteCalldata, bind, Option.bind_eq_some, pure, Option.some.injEq] at h
  obtain ⟨v, hv, p, hp, s, hs, off, hoff, es, hes, hcd⟩ := h
  exact ⟨v, p, s, off, es, hv, hp, hs, hoff, hes, by rw [← hcd]⟩

theorem buildCreateProposalCalldata_inv {title description messagesJson deposit : String}
    {cd : String} (h : buildCreateProposalCalldata title description messagesJson deposit = some cd) :
    ∃ tow dso mo dep pro et edc em,
      encodeUint 160 = some tow ∧
      encodeUint ((160 + 32 + ceil32 (jsStrLen title) : Nat) : Int) = some dso ∧
      encodeUint ((160 + 32 + ceil32 (jsStrLen title) + 32 + ceil32 (jsStrLen description) : Nat) : Int) = some mo ∧
      encodeUintS deposit = some dep ∧
      encodeAddress "0x0000000000000000000000000000000000000000" = some pro ∧
      encodeString title = some et ∧ encodeString description = some edc ∧
      encodeString messagesJson = some em ∧
      cd.data = "0x".data ++ "cb0dddfe".data ++ tow ++ dso ++ mo ++ dep ++ pro ++
        et.lengthHex ++ et.paddedData ++ edc.lengthHex ++ edc.paddedData ++
        em.lengthHex ++ em.paddedData := by
  simp only [buildCreateProposalCalldata, bind, Option.bind_eq_some, pure,
    Option.some.injEq] at h
  obtain ⟨tow, hto, dso, hdso, mo, hmo, dep, hdep, pro, hpro, et, het, edc, hedc, em, hem, hcd⟩ := h
  exact ⟨tow, dso, mo, dep, pro, et, edc, em, hto, hdso, hmo, hdep, hpro, het, hedc, hem,
    by rw [← hcd]⟩

/-! ## The claims -/

/-- C5: for every unsigned integer v with 0 ≤ v ≤ 2^256−1, encodeUint v is a
    32-byte (64 hex-character) word that decodes back to v; for every
    negative value and every value exceeding 2^256−1, encodeUint fails and
    returns no word. -/
theorem encodeUint_roundtrip_and_range (v : Int) :
    (0 ≤ v → v < 2 ^ 256 →
      ∃ w, encodeUint v = some w ∧ w.length = 64 ∧ (hexToNat w : Int) = v) ∧
    (v < 0 ∨ 2 ^ 256 ≤ v → encodeUint v = none) := by
  constructor
  · intro h0 h1
    have h := encodeUint_eq_some v h0 h1
    exact ⟨_, h, encodeUint_length v _ h, encodeUint_decode v _ h⟩
  · intro h
    rcases h with h | h
    · exact encodeUint_none_neg v h
    · exact encodeUint_none_big v h

/-- Witness for C5 at v = 255, v = −1 and v = 2^256. -/
theorem encodeUint_roundtrip_witness :
    (∃ w, encodeUint 255 = some w ∧ w.length = 64 ∧ (hexToNat w : Int) = 255) ∧
    encodeUint (-1) = none ∧ encodeUint (2 ^ 256) = none :=
  ⟨(encodeUint_roundtrip_and_range 255).1 (by norm_num) (by norm_num),
   (encodeUint_roundtrip_and_range (-1)).2 (Or.inl (by norm_num)),
   (encodeUint_roundtrip_and_range (2 ^ 256)).2 (Or.inr (by norm_num))⟩

/-- C6: for every string s, encodeString s yields a length word encoding the
    UTF-8 byte length of s and padded data a multiple of 32 bytes long whose
    first byteLength(s) bytes are the UTF-8 bytes of s and whose remaining
    bytes are zero; encodeString "" yields a zero length word and empty
    padded data. -/
theorem encodeString_spec (s : String) (h : (utf8Bytes s).length < 2 ^ 256) :
    ∃ es, encodeString s = some es ∧
      (hexToNat es.lengthHex : Int) = ((utf8Bytes s).length : Int) ∧
      es.paddedData.length % 64 = 0 ∧
      hexPairs? es.paddedData = some (utf8Bytes s ++
        List.replicate (ceil32 (utf8Bytes s).length - (utf8Bytes s).length) 0) ∧
      encodeString "" = some ⟨List.replicate 64 '0', []⟩ := by
  obtain ⟨lw, hlw, hes⟩ := encodeString_eq s h
  refine ⟨_, hes, ?_, ?_, ?_, ?_⟩
  · exact encodeUint_decode _ _ hlw
  · have hp := encodeString_paddedData_len s _ hes
    have hm := ceil32_mod (utf8Bytes s).length
    simp only [hp]
    omega
  · have hparts := encodeString_some_parts s _ hes
    rw [hparts.2]
    refine hexPairs_hexOfBytes _ ?_
    intro b hb
    rcases List.mem_append.mp hb with hb | hb
    · exact utf8Bytes_mem s b hb
    · have := List.eq_of_mem_replicate hb
      omega
  · decide

/-- Witness for C6 at s = "ab". -/
theorem encodeString_spec_witness :
    (utf8Bytes "ab").length < 2 ^ 256 ∧
    ∃ es, encodeString "ab" = some es ∧
      (hexToNat es.lengthHex : Int) = ((utf8Bytes "ab").length : Int) ∧
      es.paddedData.length % 64 = 0 ∧
      hexPairs? es.paddedData = some (utf8Bytes "ab" ++
        List.replicate (ceil32 (utf8Bytes "ab").length - (utf8Bytes "ab").length) 0) ∧
      encodeString "" = some ⟨List.replicate 64 '0', []⟩ :=
  ⟨by decide, encodeString_spec "ab" (by decide)⟩

/-- C2 counterexample: a 19-byte hex string is malformed by the claim, yet
    encodeAddress happily pads it and returns a word instead of failing. -/
theorem encodeAddress_short_hex_accepted :
    (getBytes? "0xd4949664cd82660aae99bedc034a0dea8a0bd5").map List.length = some 19 ∧
    (encodeAddress "0xd4949664cd82660aae99bedc034a0dea8a0bd5").isSome = true := by
  constructor
  · decide
  · decide

/-- C2 amended: encodeAddress left-zero-pads any well-formed 0x-prefixed hex
    byte string of at most 32 bytes (so a valid 20-byte address yields a
    64-hex-character word, address right-aligned, high 24 hex characters
    zero), and it fails exactly on inputs getBytes rejects (no 0x prefix, odd
    digit count, non-hex characters) or longer than 32 bytes; a 19- or
    21-byte hex string is accepted, not rejected. -/
theorem encodeAddress_spec :
    (∀ addr bs, getBytes? addr = some bs → bs.length = 20 →
      ∃ w, encodeAddress addr = some w ∧ w.length = 64 ∧
        w.take 24 = List.replicate 24 '0' ∧ w.drop 24 = hexOfBytes bs) ∧
    (∀ addr, encodeAddress addr = none ↔
      getBytes? addr = none ∨ ∃ bs, getBytes? addr = some bs ∧ 32 < bs.length) := by
  constructor
  · intro addr bs hg hlen
    have h := encodeAddress_of_getBytes addr bs hg (by omega)
    refine ⟨_, h, encodeAddress_length addr _ h, ?_, ?_⟩
    · rw [hexOfBytes_append]
      have hz : hexOfBytes (List.replicate (32 - bs.length) 0) = List.replicate 24 '0' := by
        rw [hlen]
        decide
      rw [hz]
      exact List.take_left' (by simp)
    · rw [hexOfBytes_append]
      have hz : hexOfBytes (List.replicate (32 - bs.length) 0) = List.replicate 24 '0' := by
        rw [hlen]
        decide
      rw [hz]
      exact List.drop_left' (by simp)
  · exact encodeAddress_none_iff

/-- Witness for C2 at a concrete 20-byte address and a concrete rejected input. -/
theorem encodeAddress_spec_witness :
    (∃ w, encodeAddress "0x00000000000000000000000000000000000000ff" = some w ∧
      w.length = 64 ∧ w.take 24 = List.replicate 24 '0' ∧
      w.drop 24 = hexOfBytes (List.replicate 19 0 ++ [255])) ∧
    (encodeAddress "zz" = none ↔
      getBytes? "zz" = none ∨ ∃ bs, getBytes? "zz" = some bs ∧ 32 < bs.length) :=
  ⟨encodeAddress_spec.1 "0x00000000000000000000000000000000000000ff"
    (List.replicate 19 0 ++ [255]) (by decide) (by decide),
   encodeAddress_spec.2 "zz"⟩

theorem encodeUintS_inv (s : String) (w : List Char) (h : encodeUintS s = some w) :
    ∃ n, jsBigInt? s = some n ∧ encodeUint n = some w := by
  unfold encodeUintS at h
  cases hj : jsBigInt? s with
  | none => rw [hj] at h; simp at h
  | some n =>
    rw [hj] at h
    exact ⟨n, rfl, h⟩

theorem encodeUintS_length (s : String) (w : List Char) (h : encodeUintS s = some w) :
    w.length = 64 := by
  obtain ⟨n, _, he⟩ := encodeUintS_inv s w h
  exact encodeUint_length n w he

/-- C7: every builder returns a hex string prefixed with 0x whose first four
    bytes after the prefix are the literal selector of that call: 7ae4a8ff
    for bridge, f5e56040 for delegate, 2efe8a5f for claim, 9ec4d363 for
    governance vote and cb0dddfe for governance create-proposal. -/
theorem builders_emit_literal_selectors :
    (∀ (destChainId : Int) (tok amt fee ex : String) (cd : String),
      buildBridgeCalldata destChainId tok amt fee ex = some cd →
      cd.data.take 10 = "0x7ae4a8ff".data) ∧
    (∀ del val amt den cd, buildDelegationCalldata del val amt den = some cd →
      cd.data.take 10 = "0xf5e56040".data) ∧
    (∀ (del : String) (amt : Int) (cd : String), buildClaimCalldata del amt = some cd →
      cd.data.take 10 = "0x2efe8a5f".data) ∧
    (∀ (voter : String) (pid : Int) (support : Bool) (reason cd : String),
      buildVoteCalldata voter pid support reason = some cd →
      cd.data.take 10 = "0x9ec4d363".data) ∧
    (∀ title descr msgs dep cd, buildCreateProposalCalldata title descr msgs dep = some cd →
      cd.data.take 10 = "0xcb0dddfe".data) := by
  refine ⟨?_, ?_, ?_, ?_, ?_⟩
  · intro dc tok amt fee ex cd h
    obtain ⟨d, off, t, a, f, es, _, _, _, _, _, _, hcd⟩ := buildBridgeCalldata_inv h
    simp only [List.append_assoc] at hcd
    rw [hcd]
    exact List.take_left' (by decide)
  · intro del val amt den cd h
    obtain ⟨d, v, a, off, es, _, _, _, _, _, hcd⟩ := buildDelegationCalldata_inv h
    have hre : cd.data = "0xf5e56040".data ++ (d ++ (v ++ (a ++ (off ++
        (es.lengthHex ++ es.paddedData))))) := by
      rw [hcd]; simp [List.append_assoc]
    rw [hre]
    exact List.take_left' (by decide)
  · intro del amt cd h
    obtain ⟨d, a, _, _, hcd⟩ := buildClaimCalldata_inv h
    have hre : cd.data = "0x2efe8a5f".data ++ (d ++ a) := by
      rw [hcd]; simp [List.append_assoc]
    rw [hre]
    exact List.take_left' (by decide)
  · intro voter pid support reason cd h
    obtain ⟨v, p, s, off, es, _, _, _, _, _, hcd⟩ := buildVoteCalldata_inv h
    have hre : cd.data = "0x9ec4d363".data ++ (v ++ (p ++ (s ++ (off ++
        (es.lengthHex ++ es.paddedData))))) := by
      rw [hcd]; simp [List.append_assoc]
    rw [hre]
    exact List.take_left' (by decide)
  · intro title descr msgs dep cd h
    obtain ⟨tow, dso, mo, dep2, pro, et, edc, em, _, _, _, _, _, _, _, _, hcd⟩ :=
      buildCreateProposalCalldata_inv h
    have hre : cd.data = "0xcb0dddfe".data ++ (tow ++ (dso ++ (mo ++ (dep2 ++ (pro ++
        (et.lengthHex ++ (et.paddedData ++ (edc.lengthHex ++ (edc.paddedData ++
        (em.lengthHex ++ em.paddedData)))))))))) := by
      rw [hcd]; simp [List.append_assoc]
    rw [hre]
    exact List.take_left' (by decide)

/-- Witness for C7: all five selectors on concrete successful builds. -/
theorem builders_selectors_witness :
    (buildBridgeCalldata 1 "0x00000000000000000000000000000000000000ff" "5" "6" "0xab").map
      (fun cd => cd.data.take 10) = some "0x7ae4a8ff".data ∧
    (buildDelegationCalldata "0x00000000000000000000000000000000000000ff"
      "0x00000000000000000000000000000000000000aa" "5" "ahelios").map
      (fun cd => cd.data.take 10) = some "0xf5e56040".data ∧
    (buildClaimCalldata "0x00000000000000000000000000000000000000ff" 5).map
      (fun cd => cd.data.take 10) = some "0x2efe8a5f".data ∧
    (buildVoteCalldata "0x00000000000000000000000000000000000000ff" 3 true "ok").map
      (fun cd => cd.data.take 10) = some "0x9ec4d363".data ∧
    (buildCreateProposalCalldata "t" "d" "[]" "1").map
      (fun cd => cd.data.take 10) = some "0xcb0dddfe".data := by
  refine ⟨?_, ?_, ?_, ?_, ?_⟩
  · cases h : buildBridgeCalldata 1 "0x00000000000000000000000000000000000000ff" "5" "6" "0xab" with
    | none => exact absurd h (by decide)
    | some cd =>
      rw [Option.map_some', builders_emit_literal_selectors.1 _ _ _ _ _ _ h]
  · cases h : buildDelegationCalldata "0x00000000000000000000000000000000000000ff"
      "0x00000000000000000000000000000000000000aa" "5" "ahelios" with
    | none => exact absurd h (by decide)
    | some cd =>
      rw [Option.map_some', builders_emit_literal_selectors.2.1 _ _ _ _ _ h]
  · cases h : buildClaimCalldata "0x00000000000000000000000000000000000000ff" 5 with
    | none => exact absurd h (by decide)
    | some cd =>
      rw [Option.map_some', builders_emit_literal_selectors.2.2.1 _ _ _ h]
  · cases h : buildVoteCalldata "0x00000000000000000000000000000000000000ff" 3 true "ok" with
    | none => exact absurd h (by decide)
    | some cd =>
      rw [Option.map_some', builders_emit_literal_selectors.2.2.2.1 _ _ _ _ _ h]
  · cases h : buildCreateProposalCalldata "t" "d" "[]" "1" with
    | none => exact absurd h (by decide)
    | some cd =>
      rw [Option.map_some', builders_emit_literal_selectors.2.2.2.2 _ _ _ _ _ h]

/-- C9: every builder is deterministic: identical inputs produce identical
    calldata; the embedded builders are pure functions of their arguments
    alone (the source functions read no clock, randomness or mutable state
    that could reach the output). -/
theorem builders_deterministic :
    (∀ (dc₁ dc₂ : Int) (tok₁ tok₂ amt₁ amt₂ fee₁ fee₂ ex₁ ex₂ : String),
      dc₁ = dc₂ → tok₁ = tok₂ → amt₁ = amt₂ → fee₁ = fee₂ → ex₁ = ex₂ →
      buildBridgeCalldata dc₁ tok₁ amt₁ fee₁ ex₁ = buildBridgeCalldata dc₂ tok₂ amt₂ fee₂ ex₂) ∧
    (∀ (d₁ d₂ v₁ v₂ a₁ a₂ dn₁ dn₂ : String), d₁ = d₂ → v₁ = v₂ → a₁ = a₂ → dn₁ = dn₂ →
      buildDelegationCalldata d₁ v₁ a₁ dn₁ = buildDelegationCalldata d₂ v₂ a₂ dn₂) ∧
    (∀ (d₁ d₂ : String) (c₁ c₂ : Int), d₁ = d₂ → c₁ = c₂ →
      buildClaimCalldata d₁ c₁ = buildClaimCalldata d₂ c₂) ∧
    (∀ (v₁ v₂ : String) (p₁ p₂ : Int) (s₁ s₂ : Bool) (r₁ r₂ : String),
      v₁ = v₂ → p₁ = p₂ → s₁ = s₂ → r₁ = r₂ →
      buildVoteCalldata v₁ p₁ s₁ r₁ = buildVoteCalldata v₂ p₂ s₂ r₂) ∧
    (∀ (t₁ t₂ de₁ de₂ m₁ m₂ dp₁ dp₂ : String), t₁ = t₂ → de₁ = de₂ → m₁ = m₂ → dp₁ = dp₂ →
      buildCreateProposalCalldata t₁ de₁ m₁ dp₁ = buildCreateProposalCalldata t₂ de₂ m₂ dp₂) := by
  refine ⟨?_, ?_, ?_, ?_, ?_⟩
  · intro _ _ _ _ _ _ _ _ _ _ h1 h2 h3 h4 h5
    subst h1; subst h2; subst h3; subst h4; subst h5; rfl
  · intro _ _ _ _ _ _ _ _ h1 h2 h3 h4
    subst h1; subst h2; subst h3; subst h4; rfl
  · intro _ _ _ _ h1 h2
    subst h1; subst h2; rfl
  · intro _ _ _ _ _ _ _ _ h1 h2 h3 h4
    subst h1; subst h2; subst h3; subst h4; rfl
  · intro _ _ _ _ _ _ _ _ h1 h2 h3 h4
    subst h1; subst h2; subst h3; subst h4; rfl

/-- Witness for C9 at concrete repeated invocations. -/
theorem builders_deterministic_witness :
    buildBridgeCalldata 1 "0xaa" "1" "2" "0xbb" = buildBridgeCalldata 1 "0xaa" "1" "2" "0xbb" ∧
    buildDelegationCalldata "a" "b" "1" "d" = buildDelegationCalldata "a" "b" "1" "d" ∧
    buildClaimCalldata "a" 1 = buildClaimCalldata "a" 1 ∧
    buildVoteCalldata "a" 1 true "r" = buildVoteCalldata "a" 1 true "r" ∧
    buildCreateProposalCalldata "t" "d" "m" "1" = buildCreateProposalCalldata "t" "d" "m" "1" :=
  ⟨builders_deterministic.1 1 1 "0xaa" "0xaa" "1" "1" "2" "2" "0xbb" "0xbb" rfl rfl rfl rfl rfl,
   builders_deterministic.2.1 "a" "a" "b" "b" "1" "1" "d" "d" rfl rfl rfl rfl,
   builders_deterministic.2.2.1 "a" "a" 1 1 rfl rfl,
   builders_deterministic.2.2.2.1 "a" "a" 1 1 true true "r" "r" rfl rfl rfl rfl,
   builders_deterministic.2.2.2.2 "t" "t" "d" "d" "m" "m" "1" "1" rfl rfl rfl rfl⟩

/-- C8: the delegation builder without a denom argument is byte-identical to
    the call with the protocol denomination "ahelios", and the claim builder
    is exactly selector ++ encodeAddress(delegator) ++ encodeUint(amountOrId):
    68 bytes, no offset word, no dynamic tail (138 characters with 0x). -/
theorem delegation_default_denom_and_claim_shape :
    (∀ delegator validator amount,
      buildDelegationCalldataNoDenom delegator validator amount =
        buildDelegationCalldata delegator validator amount "ahelios") ∧
    (∀ (delegator : String) (claimAmountOrId : Int) (cd : String),
      buildClaimCalldata delegator claimAmountOrId = some cd →
      ∃ wa wu, encodeAddress delegator = some wa ∧ encodeUint claimAmountOrId = some wu ∧
        cd.data = "0x2efe8a5f".data ++ wa ++ wu ∧ cd.data.length = 138) := by
  constructor
  · intro d v a
    rfl
  · intro del amt cd h
    obtain ⟨d, a, hd, ha, hcd⟩ := buildClaimCalldata_inv h
    have ld := encodeAddress_length del d hd
    have la := encodeUint_length amt a ha
    have hsel : "0x".data ++ "2efe8a5f".data = "0x2efe8a5f".data := by decide
    refine ⟨d, a, hd, ha, ?_, ?_⟩
    · rw [hcd, hsel]
    · rw [hcd]
      simp only [List.length_append, ld, la]
      decide

/-- Witness for C8 on a concrete claim build. -/
theorem delegation_claim_witness :
    buildDelegationCalldataNoDenom "a" "b" "1" = buildDelegationCalldata "a" "b" "1" "ahelios" ∧
    ∃ wa wu, encodeAddress "0x00000000000000000000000000000000000000ff" = some wa ∧
      encodeUint 7 = some wu ∧
      ∃ cd, buildClaimCalldata "0x00000000000000000000000000000000000000ff" 7 = some cd ∧
        cd.data = "0x2efe8a5f".data ++ wa ++ wu ∧ cd.data.length = 138 := by
  refine ⟨delegation_default_denom_and_claim_shape.1 "a" "b" "1", ?_⟩
  cases h : buildClaimCalldata "0x00000000000000000000000000000000000000ff" 7 with
  | none => exact absurd h (by decide)
  | some cd =>
    obtain ⟨wa, wu, hwa, hwu, hshape, hlen⟩ :=
      delegation_default_denom_and_claim_shape.2 "0x00000000000000000000000000000000000000ff" 7 cd h
    exact ⟨wa, wu, hwa, hwu, cd, rfl, hshape, hlen⟩

/-- C4: in every bridge calldata the single offset word of the static head
    decodes to 160 and the extra-string length word (which decodes to the
    string's UTF-8 byte length) begins exactly at parameter-area byte offset
    160, just after the 4-byte selector; in every delegation (delegate) and
    governance vote calldata the offset word decodes to 128 and the
    denom/reason length word begins exactly at parameter-area byte offset
    128. -/
theorem offset_words_match_tail_positions :
    (∀ (destChainId : Int) (tok amt fee ex : String) (cd : String),
      buildBridgeCalldata destChainId tok amt fee ex = some cd →
      hexToNat (wordAt cd 32) = 160 ∧
      hexToNat (wordAt cd 160) = (utf8Bytes ex).length) ∧
    (∀ del val amt den cd, buildDelegationCalldata del val amt den = some cd →
      hexToNat (wordAt cd 96) = 128 ∧
      hexToNat (wordAt cd 128) = (utf8Bytes den).length) ∧
    (∀ (voter : String) (pid : Int) (support : Bool) (reason cd : String),
      buildVoteCalldata voter pid support reason = some cd →
      hexToNat (wordAt cd 96) = 128 ∧
      hexToNat (wordAt cd 128) = (utf8Bytes reason).length) := by
  refine ⟨?_, ?_, ?_⟩
  · intro dc tok amt fee ex cd h
    obtain ⟨d, off, t, a, f, es, hd, hoff, ht, ha, hf, hes, hcd⟩ := buildBridgeCalldata_inv h
    have ld := encodeUint_length _ _ hd
    have loff := encodeUint_length _ _ hoff
    have lt := encodeAddress_length _ _ ht
    have la := encodeUintS_length _ _ ha
    have lf := encodeUintS_length _ _ hf
    have llh := encodeString_lengthHex_len _ _ hes
    constructor
    · have hre : cd.data = ("0x7ae4a8ff".data ++ d) ++
          (off ++ (t ++ (a ++ (f ++ (es.lengthHex ++ es.paddedData))))) := by
        rw [hcd]; simp [List.append_assoc]
      have hw : wordAt cd 32 = off := by
        refine wordAt_extract _ hre ?_ loff
        simp only [List.length_append, ld]
        decide
      rw [hw]
      exact_mod_cast encodeUint_decode _ _ hoff
    · have hre : cd.data = ("0x7ae4a8ff".data ++ d ++ off ++ t ++ a ++ f) ++
          (es.lengthHex ++ es.paddedData) := by
        rw [hcd]; simp [List.append_assoc]
      have hw : wordAt cd 160 = es.lengthHex := by
        refine wordAt_extract _ hre ?_ llh
        simp only [List.length_append, ld, loff, lt, la, lf]
        decide
      rw [hw]
      exact_mod_cast encodeUint_decode _ _ (encodeString_some_parts _ _ hes).1
  · intro del val amt den cd h
    obtain ⟨d, v, a, off, es, hd, hv, ha, hoff, hes, hcd⟩ := buildDelegationCalldata_inv h
    have ld := encodeAddress_length _ _ hd
    have lv := encodeAddress_length _ _ hv
    have la := encodeUintS_length _ _ ha
    have loff := encodeUint_length _ _ hoff
    have llh := encodeString_lengthHex_len _ _ hes
    constructor
    · have hre : cd.data = ("0x".data ++ "f5e56040".data ++ d ++ v ++ a) ++
          (off ++ (es.lengthHex ++ es.paddedData)) := by
        rw [hcd]; simp [List.append_assoc]
      have hw : wordAt cd 96 = off := by
        refine wordAt_extract _ hre ?_ loff
        simp only [List.length_append, ld, lv, la]
        decide
      rw [hw]
      exact_mod_cast encodeUint_decode _ _ hoff
    · have hre : cd.data = ("0x".data ++ "f5e56040".data ++ d ++ v ++ a ++ off) ++
          (es.lengthHex ++ es.paddedData) := by
        rw [hcd]; simp [List.append_assoc]
      have hw : wordAt cd 128 = es.lengthHex := by
        refine wordAt_extract _ hre ?_ llh
        simp only [List.length_append, ld, lv, la, loff]
        decide
      rw [hw]
      exact_mod_cast encodeUint_decode _ _ (encodeString_some_parts _ _ hes).1
  · intro voter pid support reason cd h
    obtain ⟨v, p, s, off, es, hv, hp, hs, hoff, hes, hcd⟩ := buildVoteCalldata_inv h
    have lv := encodeAddress_length _ _ hv
    have lp := encodeUint_length _ _ hp
    have ls := encodeUint_length _ _ hs
    have loff := encodeUint_length _ _ hoff
    have llh := encodeString_lengthHex_len _ _ hes
    constructor
    · have hre : cd.data = ("0x".data ++ "9ec4d363".data ++ v ++ p ++ s) ++
          (off ++ (es.lengthHex ++ es.paddedData)) := by
        rw [hcd]; simp [List.append_assoc]
      have hw : wordAt cd 96 = off := by
        refine wordAt_extract _ hre ?_ loff
        simp only [List.length_append, lv, lp, ls]
        decide
      rw [hw]
      exact_mod_cast encodeUint_decode _ _ hoff
    · have hre : cd.data = ("0x".data ++ "9ec4d363".data ++ v ++ p ++ s ++ off) ++
          (es.lengthHex ++ es.paddedData) := by
        rw [hcd]; simp [List.append_assoc]
      have hw : wordAt cd 128 = es.lengthHex := by
        refine wordAt_extract _ hre ?_ llh
        simp only [List.length_append, lv, lp, ls, loff]
        decide
      rw [hw]
      exact_mod_cast encodeUint_decode _ _ (encodeString_some_parts _ _ hes).1

/-- Witness for C4 on concrete successful builds of all three builders. -/
theorem offset_words_witness :
    (buildBridgeCalldata 1 "0x00000000000000000000000000000000000000ff" "5" "6" "0xab").map
      (fun cd => (hexToNat (wordAt cd 32), hexToNat (wordAt cd 160))) = some (160, 4) ∧
    (buildDelegationCalldata "0x00000000000000000000000000000000000000ff"
      "0x00000000000000000000000000000000000000aa" "5" "ahelios").map
      (fun cd => (hexToNat (wordAt cd 96), hexToNat (wordAt cd 128))) = some (128, 7) ∧
    (buildVoteCalldata "0x00000000000000000000000000000000000000ff" 3 true "ok").map
      (fun cd => (hexToNat (wordAt cd 96), hexToNat (wordAt cd 128))) = some (128, 2) := by
  refine ⟨?_, ?_, ?_⟩
  · cases h : buildBridgeCalldata 1 "0x00000000000000000000000000000000000000ff" "5" "6" "0xab" with
    | none => exact absurd h (by decide)
    | some cd =>
      obtain ⟨h1, h2⟩ := offset_words_match_tail_positions.1 _ _ _ _ _ _ h
      rw [Option.map_some', h1, h2]
      decide
  · cases h : buildDelegationCalldata "0x00000000000000000000000000000000000000ff"
      "0x00000000000000000000000000000000000000aa" "5" "ahelios" with
    | none => exact absurd h (by decide)
    | some cd =>
      obtain ⟨h1, h2⟩ := offset_words_match_tail_positions.2.1 _ _ _ _ _ h
      rw [Option.map_some', h1, h2]
      decide
  · cases h : buildVoteCalldata "0x00000000000000000000000000000000000000ff" 3 true "ok" with
    | none => exact absurd h (by decide)
    | some cd =>
      obtain ⟨h1, h2⟩ := offset_words_match_tail_positions.2.2 _ _ _ _ _ h
      rw [Option.map_some', h1, h2]
      decide

deriving instance DecidableEq for Except

/-- C10: buildBridgeCalldata itself performs no input validation: with
    amountWei "0" and an extra string "abc" that does not start with 0x it
    still returns a 0x-prefixed calldata string, while validateBridgeParams
    rejects exactly those inputs, and the bridge service (which validates
    before building) reports the validation failure without building. -/
theorem bridge_builder_skips_validation :
    (buildBridgeCalldata 11155111 "0xd4949664cd82660aae99bedc034a0dea8a0bd517" "0" "1000"
      "abc").map (fun cd => cd.data.take 2) = some "0x".data ∧
    validateBridgeParams 11155111 "0xd4949664cd82660aae99bedc034a0dea8a0bd517" "0" "1000"
      "abc" = some ["Invalid amount", "Invalid extra string (must be hex address)"] ∧
    bridgeTokensCore 11155111 "0xd4949664cd82660aae99bedc034a0dea8a0bd517" "0" "1000" "abc" =
      some (Except.error
        "Bridge validation failed: Invalid amount, Invalid extra string (must be hex address)") := by
  refine ⟨by decide, by decide, by decide⟩

set_option maxRecDepth 8000 in
/-- C1 (the code computes offsets from the UTF-16 string length, not the
    UTF-8 byte length): with a title of 17 copies of é (17 UTF-16 code
    units, 34 UTF-8 bytes) the emitted descriptionOffset word decodes to
    224 = 160 + 32 + roundUpTo32(17), while the UTF-8 formula of the claim
    gives 160 + 32 + roundUpTo32(34) = 256, which is where the description
    length word (decoding to 2 for "BB") actually sits in the emitted
    calldata; for the ASCII inputs title="A", description="BB" the claimed
    values 224 and 288 do hold. -/
theorem createProposal_offsets_use_utf16_length :
    (buildCreateProposalCalldata (String.mk (List.replicate 17 'é')) "BB" "[]" "1").map
      (fun cd => (hexToNat (wordAt cd 32), hexToNat (wordAt cd 256))) = some (224, 2) ∧
    160 + 32 + ceil32 (utf8Bytes (String.mk (List.replicate 17 'é'))).length = 256 ∧
    (buildCreateProposalCalldata "A" "BB" "[]" "1").map
      (fun cd => (hexToNat (wordAt cd 32), hexToNat (wordAt cd 64))) = some (224, 288) := by
  refine ⟨by decide, by decide, by decide⟩

/-! ## Bridge parameter validation -/

theorem mem_ite_singleton {c : Prop} [Decidable c] (m x : String) :
    (x ∈ if c then [m] else ([] : List String)) ↔ c ∧ x = m := by
  split_ifs with h <;> simp [h]

theorem mem_ite_nil {c : Prop} [Decidable c] (m x : String) :
    (x ∈ if c then ([] : List String) else [m]) ↔ ¬c ∧ x = m := by
  split_ifs with h <;> simp [h]

theorem ite_singleton_eq_nil {c : Prop} [Decidable c] (m : String) :
    ((if c then [m] else ([] : List String)) = []) ↔ ¬c := by
  split_ifs with h <;> simp [h]

theorem ite_nil_eq_nil {c : Prop} [Decidable c] (m : String) :
    ((if c then ([] : List String) else [m]) = []) ↔ c := by
  split_ifs with h <;> simp [h]

theorem amountErrors_spec (amt : String) (h : amt = "" ∨ (jsBigInt? amt).isSome) :
    (amountErrors amt = some ["Invalid amount"] ∧
      (amt = "" ∨ ∃ a, jsBigInt? amt = some a ∧ a ≤ 0)) ∨
    (amountErrors amt = some [] ∧
      ¬(amt = "" ∨ ∃ a, jsBigInt? amt = some a ∧ a ≤ 0)) := by
  by_cases he : amt = ""
  · exact Or.inl ⟨by simp [amountErrors, he], Or.inl he⟩
  · rcases h with h | h
    · exact absurd h he
    · obtain ⟨a, hja⟩ := Option.isSome_iff_exists.mp h
      by_cases hle : a ≤ 0
      · refine Or.inl ⟨?_, Or.inr ⟨a, hja, hle⟩⟩
        simp [amountErrors, he, hja, hle]
      · refine Or.inr ⟨?_, ?_⟩
        · simp [amountErrors, he, hja, hle]
        · rintro (he2 | ⟨a2, ha2, hle2⟩)
          · exact he he2
          · rw [hja] at ha2
            injection ha2 with ha2
            omega

theorem feeErrors_spec (fee : String) (h : fee = "" ∨ (jsBigInt? fee).isSome) :
    (feeErrors fee = some ["Invalid fee/gas amount"] ∧
      (fee = "" ∨ ∃ b, jsBigInt? fee = some b ∧ b < 0)) ∨
    (feeErrors fee = some [] ∧
      ¬(fee = "" ∨ ∃ b, jsBigInt? fee = some b ∧ b < 0)) := by
  by_cases he : fee = ""
  · exact Or.inl ⟨by simp [feeErrors, he], Or.inl he⟩
  · rcases h with h | h
    · exact absurd h he
    · obtain ⟨b, hjb⟩ := Option.isSome_iff_exists.mp h
      by_cases hlt : b < 0
      · refine Or.inl ⟨?_, Or.inr ⟨b, hjb, hlt⟩⟩
        simp [feeErrors, he, hjb, hlt]
      · refine Or.inr ⟨?_, ?_⟩
        · simp [feeErrors, he, hjb, hlt]
        · rintro (he2 | ⟨b2, hb2, hlt2⟩)
          · exact he he2
          · rw [hjb] at hb2
            injection hb2 with hb2
            omega

theorem validateBridgeParams_run (dc : Int) (tok amt fee extra : String) (e3 e4 : List String)
    (h3 : amountErrors amt = some e3) (h4 : feeErrors fee = some e4) :
    validateBridgeParams dc tok amt fee extra = some (
      (if dc ≤ 0 then ["Invalid destination chain ID"] else []) ++
      (if isValidAddress tok then [] else ["Invalid token address"]) ++ e3 ++ e4 ++
      (if startsWith0x extra then [] else ["Invalid extra string (must be hex address)"])) := by
  unfold validateBridgeParams
  simp only [bind, h3, h4]
  rfl

theorem bridgeTokensCore_of_errors (dc : Int) (tok amt fee extra : String) (errs : List String)
    (hv : validateBridgeParams dc tok amt fee extra = some errs) (hne : errs ≠ []) :
    bridgeTokensCore dc tok amt fee extra =
      some (Except.error (bridgeValidationMessage errs)) := by
  unfold bridgeTokensCore
  rw [hv, Option.map_some']
  have hie : errs.isEmpty = false := by
    cases errs with
    | nil => exact absurd rfl hne
    | cons a l => rfl
  simp [hie]

/-- C3 amended: validateBridgeParams throws exactly when destChainId ≤ 0, or
    the token address fails address validation, or amountWei is empty or
    parses to a value ≤ 0, or feeOrGas is empty or parses to a value < 0
    (the string "0" is accepted, although 0 is not a positive integer), or
    the extra string does not start with "0x" (hex-ness beyond the prefix is
    not checked); the error lists every violated constraint, and when
    validation fails the bridge service reports the failure without any
    encoding.  The hypotheses restrict amountWei and feeOrGas to inputs on
    which BigInt does not itself throw, and the token address to strings
    without uppercase letters, where the embedded isValidAddress is a
    faithful model of ethers.getAddress (no EIP-55 checksum or ICAP
    branch). -/
theorem validateBridgeParams_spec (destChainId : Int) (tok amt fee extra : String)
    (htok : noUpper tok = true)
    (ha : amt = "" ∨ (jsBigInt? amt).isSome) (hf : fee = "" ∨ (jsBigInt? fee).isSome) :
    ∃ errs, validateBridgeParams destChainId tok amt fee extra = some errs ∧
      (errs = [] ↔ (0 < destChainId ∧ isValidAddress tok = true ∧
        ¬(amt = "" ∨ ∃ a, jsBigInt? amt = some a ∧ a ≤ 0) ∧
        ¬(fee = "" ∨ ∃ b, jsBigInt? fee = some b ∧ b < 0) ∧
        startsWith0x extra = true)) ∧
      ("Invalid destination chain ID" ∈ errs ↔ destChainId ≤ 0) ∧
      ("Invalid token address" ∈ errs ↔ ¬isValidAddress tok = true) ∧
      ("Invalid amount" ∈ errs ↔ (amt = "" ∨ ∃ a, jsBigInt? amt = some a ∧ a ≤ 0)) ∧
      ("Invalid fee/gas amount" ∈ errs ↔ (fee = "" ∨ ∃ b, jsBigInt? fee = some b ∧ b < 0)) ∧
      ("Invalid extra string (must be hex address)" ∈ errs ↔ ¬startsWith0x extra = true) ∧
      (errs ≠ [] → bridgeTokensCore destChainId tok amt fee extra =
        some (Except.error (bridgeValidationMessage errs))) := by
  rcases amountErrors_spec amt ha with ⟨h3, hA⟩ | ⟨h3, hA⟩ <;>
    rcases feeErrors_spec fee hf with ⟨h4, hF⟩ | ⟨h4, hF⟩ <;>
    refine ⟨_, validateBridgeParams_run destChainId tok amt fee extra _ _ h3 h4,
      ?_, ?_, ?_, ?_, ?_, ?_,
      fun hne => bridgeTokensCore_of_errors destChainId tok amt fee extra _
        (validateBridgeParams_run destChainId tok amt fee extra _ _ h3 h4) hne⟩ <;>
    simp [List.append_eq_nil, ite_singleton_eq_nil, ite_nil_eq_nil, List.mem_append,
      mem_ite_singleton, mem_ite_nil, hA, hF, not_le, and_assoc]

/-- C3 counterexample: feeOrGas "0" is not a positive integer (the claim
    requires a throw) yet validation collects no error, since the code only
    rejects strictly negative fees, and the non-hex extra string "0xzz"
    passes as well because only the 0x prefix is checked. -/
theorem validateBridgeParams_gaps :
    validateBridgeParams 11155111 "0xd4949664cd82660aae99bedc034a0dea8a0bd517" "1000" "0"
      "0xabcdefabcdefabcdefabcdefabcdefabcdefabcd" = some [] ∧
    jsBigInt? "0" = some 0 ∧
    validateBridgeParams 11155111 "0xd4949664cd82660aae99bedc034a0dea8a0bd517" "1000" "1"
      "0xzz" = some [] := by
  refine ⟨by decide, by decide, by decide⟩

/-- Witness for C3 at a concrete input with two violations. -/
theorem validateBridgeParams_spec_witness :
    ∃ errs, validateBridgeParams 0 "nope" "5" "-1" "xyz" = some errs ∧
      "Invalid fee/gas amount" ∈ errs ∧ "Invalid destination chain ID" ∈ errs := by
  obtain ⟨errs, hv, _, hdc, _, _, hfee, _, _⟩ :=
    validateBridgeParams_spec 0 "nope" "5" "-1" "xyz" (by decide)
      (Or.inr (by decide)) (Or.inr (by decide))
  exact ⟨errs, hv, hfee.mpr (Or.inr ⟨-1, by decide, by decide⟩), hdc.mpr (by decide)⟩

end HylosTank
